import Mathlib

/-!
Verification of the stream buffer / cursor / matcher subsystem
(`src/stream.h`, `src/stream.cc`).

The C++ get-area of a `std::basic_streambuf` specialisation is embedded as a
record of an underlying byte store (`storage`, the contiguous accessible
memory the window lives in, one byte per list entry, values 0..255) and the
three get-area indices `eback`/`gptr`/`egptr` into that store.  Pointers
become indices; `position() = gptr - eback`; `in_avail()` is
`egptr - gptr` when `gptr < egptr` and `0` otherwise (the base-class
`showmanyc` returns 0), which is exactly truncated natural subtraction.
A `StreamCursor` holds nothing but a reference to the buffer, so cursor
operations are functions on the buffer state.
-/

namespace Pistache

/-- Get-area state of a `StreamBuf<char>`: the underlying accessible memory
and the `eback`/`gptr`/`egptr` indices set by `setg`. -/
structure StreamBufSt where
  storage : List Nat
  eback : Nat
  gptr : Nat
  egptr : Nat
deriving DecidableEq

/-- `in_avail()`: `egptr - gptr` if positive, else 0 (base `showmanyc`). -/
def inAvail (b : StreamBufSt) : Nat := b.egptr - b.gptr

/-- `position()`: `gptr - eback`. -/
def position (b : StreamBufSt) : Nat := b.gptr - b.eback

/-- `setArea` / `setg`: replace the three window pointers. -/
def setArea (b : StreamBufSt) (e g eg : Nat) : StreamBufSt :=
  { b with eback := e, gptr := g, egptr := eg }

/-- `sbumpc` as it acts on the get position: advance `gptr` by one when the
get area is non-empty; at the end the default `uflow` returns eof without
moving the position. -/
def sbumpcPos (b : StreamBufSt) : StreamBufSt :=
  if b.gptr < b.egptr then { b with gptr := b.gptr + 1 } else b

/-- `StreamBuf::snext`: return eof if `gptr == egptr`, otherwise read the
byte at `gptr + 1`.  The read is NOT bounded by `egptr`; when it falls
outside the modelled accessible memory the result is `none` (an invalid
read in the C++). -/
def snext (b : StreamBufSt) : Option Int :=
  if b.gptr = b.egptr then some (-1)
  else (b.storage.get? (b.gptr + 1)).map (fun x => (x : Int))

namespace StreamCursor

/-- `StreamCursor::Eof`. -/
def Eof : Int := -1

/-- `StreamCursor::remaining()`: `buf->in_avail()`. -/
def remaining (b : StreamBufSt) : Nat := inAvail b

/-- `StreamCursor::eof()`: `remaining() == 0`. -/
def eof (b : StreamBufSt) : Bool := remaining b == 0

/-- `StreamCursor::next()`: eof if `in_avail() < 1`, else `snext`. -/
def next (b : StreamBufSt) : Option Int :=
  if inAvail b < 1 then some Eof else snext b

/-- `StreamCursor::current()`: `sgetc`, i.e. the byte at `gptr` when the get
area is non-empty; at the end `underflow` yields eof, which converted to
`char` on a byte-oriented platform reads back as 0xFF. -/
def current (b : StreamBufSt) : Nat :=
  if b.gptr < b.egptr then b.storage.getD b.gptr 0 else 255

/-- `StreamCursor::advance(count)`: fail if `count > in_avail()`, otherwise
`sbumpc` exactly `count` times and succeed. -/
def advance (b : StreamBufSt) (count : Nat) : Bool × StreamBufSt :=
  if count > inAvail b then (false, b)
  else (true, sbumpcPos^[count] b)

end StreamCursor

/-- `CaseSensitivity`. -/
inductive CaseSensitivity
  | Sensitive
  | Insensitive
deriving DecidableEq

/-- `std::tolower` in the C locale, on ASCII byte values. -/
def tolowerAscii (c : Nat) : Nat :=
  if 65 ≤ c ∧ c ≤ 90 then c + 32 else c

/-- `match_raw(buf, len, cursor)`: fail if `remaining() < len`; otherwise
`memcmp` the next `len` bytes against the pattern, advancing on equality. -/
def match_raw (pat : List Nat) (b : StreamBufSt) : Bool × StreamBufSt :=
  if StreamCursor.remaining b < pat.length then (false, b)
  else if (List.range pat.length).all
      (fun i => b.storage.getD (b.gptr + i) 0 == pat.getD i 0) then
    (true, (StreamCursor.advance b pat.length).2)
  else (false, b)

/-- `match_literal(c, cursor, cs)`.  Transcribed exactly, including the
branch selection of the source:
`lhs = (cs == Sensitive ? c : tolower(c))` and
`rhs = (cs == Insensitive ? cursor.current() : tolower(cursor.current()))`. -/
def match_literal (c : Nat) (b : StreamBufSt) (cs : CaseSensitivity) :
    Bool × StreamBufSt :=
  if StreamCursor.eof b then (false, b)
  else
    let lhs := if cs = CaseSensitivity.Sensitive then c else tolowerAscii c
    let rhs := if cs = CaseSensitivity.Insensitive then StreamCursor.current b
               else tolowerAscii (StreamCursor.current b)
    if lhs = rhs then (true, (StreamCursor.advance b 1).2)
    else (false, b)

/-- The `find` lambda of `match_until`: some target char compares equal to
the byte `v`, with the same branch selection as the source
(`lhs = cs == Sensitive ? c : tolower(c)`,
`rhs = cs == Insensitive ? val : tolower(val)`). -/
def untilFind (chars : List Nat) (cs : CaseSensitivity) (v : Nat) : Bool :=
  chars.any (fun c =>
    (if cs = CaseSensitivity.Sensitive then c else tolowerAscii c)
      == (if cs = CaseSensitivity.Insensitive then v else tolowerAscii v))

/-- The `while (!cursor.eof())` loop of `match_until`, with fuel; each
iteration either returns at the current byte or consumes one byte, so fuel
`in_avail()` makes the fuel-out case coincide with the eof exit. -/
def matchUntilLoop (chars : List Nat) (cs : CaseSensitivity) :
    Nat → StreamBufSt → Bool × StreamBufSt
  | 0, b => (false, b)
  | fuel + 1, b =>
    if StreamCursor.eof b then (false, b)
    else if untilFind chars cs (StreamCursor.current b) then (true, b)
    else matchUntilLoop chars cs fuel (StreamCursor.advance b 1).2

/-- `match_until(chars, cursor, cs)` (initializer-list overload; the
single-char overload delegates to it with a one-element list). -/
def match_until (chars : List Nat) (b : StreamBufSt) (cs : CaseSensitivity) :
    Bool × StreamBufSt :=
  if StreamCursor.eof b then (false, b)
  else matchUntilLoop chars cs (inAvail b) b

/- Helper lemmas about `sbumpcPos` iterates. -/

theorem sbumpcPos_storage (b : StreamBufSt) : (sbumpcPos b).storage = b.storage := by
  unfold sbumpcPos; split <;> rfl

theorem sbumpcPos_eback (b : StreamBufSt) : (sbumpcPos b).eback = b.eback := by
  unfold sbumpcPos; split <;> rfl

theorem sbumpcPos_egptr (b : StreamBufSt) : (sbumpcPos b).egptr = b.egptr := by
  unfold sbumpcPos; split <;> rfl

theorem sbumpcPos_iter_eq (n : Nat) (b : StreamBufSt) (h : n ≤ b.egptr - b.gptr) :
    sbumpcPos^[n] b = { b with gptr := b.gptr + n } := by
  induction n generalizing b with
  | zero =>
    cases b
    simp
  | succ n ih =>
    rw [Function.iterate_succ_apply]
    have hlt : b.gptr < b.egptr := by omega
    have hstep : sbumpcPos b = { b with gptr := b.gptr + 1 } := by
      unfold sbumpcPos
      rw [if_pos hlt]
    rw [hstep]
    have h2 : n ≤ ({ b with gptr := b.gptr + 1 } : StreamBufSt).egptr
        - ({ b with gptr := b.gptr + 1 } : StreamBufSt).gptr := by
      simp
      omega
    rw [ih _ h2]
    simp
    omega

theorem sbumpcPos_iter_storage (n : Nat) (b : StreamBufSt) :
    (sbumpcPos^[n] b).storage = b.storage := by
  induction n generalizing b with
  | zero => rfl
  | succ n ih =>
    rw [Function.iterate_succ_apply]
    rw [ih (sbumpcPos b), sbumpcPos_storage]

theorem sbumpcPos_iter_eback (n : Nat) (b : StreamBufSt) :
    (sbumpcPos^[n] b).eback = b.eback := by
  induction n generalizing b with
  | zero => rfl
  | succ n ih =>
    rw [Function.iterate_succ_apply]
    rw [ih (sbumpcPos b), sbumpcPos_eback]

theorem sbumpcPos_iter_egptr (n : Nat) (b : StreamBufSt) :
    (sbumpcPos^[n] b).egptr = b.egptr := by
  induction n generalizing b with
  | zero => rfl
  | succ n ih =>
    rw [Function.iterate_succ_apply]
    rw [ih (sbumpcPos b), sbumpcPos_egptr]

theorem advance_snd_storage (b : StreamBufSt) (c : Nat) :
    (StreamCursor.advance b c).2.storage = b.storage := by
  unfold StreamCursor.advance
  split
  · rfl
  · exact sbumpcPos_iter_storage c b

theorem advance_snd_eback (b : StreamBufSt) (c : Nat) :
    (StreamCursor.advance b c).2.eback = b.eback := by
  unfold StreamCursor.advance
  split
  · rfl
  · exact sbumpcPos_iter_eback c b

theorem advance_snd_egptr (b : StreamBufSt) (c : Nat) :
    (StreamCursor.advance b c).2.egptr = b.egptr := by
  unfold StreamCursor.advance
  split
  · rfl
  · exact sbumpcPos_iter_egptr c b

/-- C9: for every cursor and every `count ≤ remaining()`, `advance(count)`
returns true and increases the position by exactly `count`; for every
`count > remaining()`, it returns false and the whole window is unchanged. -/
theorem advance_spec (b : StreamBufSt) (count : Nat) :
    (count ≤ StreamCursor.remaining b →
      StreamCursor.advance b count = (true, { b with gptr := b.gptr + count }))
    ∧ (count > StreamCursor.remaining b →
      StreamCursor.advance b count = (false, b)) := by
  constructor
  · intro h
    unfold StreamCursor.remaining inAvail at h
    unfold StreamCursor.advance
    rw [if_neg (by unfold inAvail; omega : ¬ count > inAvail b)]
    rw [sbumpcPos_iter_eq count b h]
  · intro h
    unfold StreamCursor.remaining at h
    unfold StreamCursor.advance
    rw [if_pos h]

/-- Witness for `advance_spec` at a concrete window: success at
`count = 2 ≤ 3 = remaining` and failure at `count = 5 > 3`. -/
theorem advance_spec_witness :
    StreamCursor.advance ⟨[10, 20, 30], 0, 0, 3⟩ 2
        = (true, ⟨[10, 20, 30], 0, 2, 3⟩)
    ∧ StreamCursor.advance ⟨[10, 20, 30], 0, 0, 3⟩ 5
        = (false, ⟨[10, 20, 30], 0, 0, 3⟩) :=
  ⟨(advance_spec ⟨[10, 20, 30], 0, 0, 3⟩ 2).1 (by decide),
   (advance_spec ⟨[10, 20, 30], 0, 0, 3⟩ 5).2 (by decide)⟩

/-- C10: `match_raw` with a zero-length pattern returns true and consumes
nothing, on every buffer state — including a cursor already at EOF
(`remaining() < 0` is impossible and a zero-byte `memcmp` succeeds). -/
theorem match_raw_empty (b : StreamBufSt) : match_raw [] b = (true, b) := by
  unfold match_raw
  rw [if_neg (by simp : ¬ StreamCursor.remaining b < ([] : List Nat).length)]
  rw [if_pos (by simp)]
  unfold StreamCursor.advance
  rw [if_neg (by simp)]
  rfl

/-- The memory `"Host: example.com\r\n"` with the window covering all 19
bytes and the cursor at position 0. -/
def hostBuf : StreamBufSt :=
  ⟨[72, 111, 115, 116, 58, 32, 101, 120, 97, 109, 112, 108, 101, 46, 99,
    111, 109, 13, 10], 0, 0, 19⟩

/-- C1: on `"Host: example.com\r\n"` at position 0,
`match_literal('H', cursor, Insensitive)` returns FALSE and leaves the
cursor at position 0, contrary to the claimed `(true, position 1)`: the
source folds only the pattern character (the `Insensitive` arm of the `rhs`
ternary yields the raw current byte), so it compares `'h'` with `'H'`. -/
theorem match_literal_insensitive_divergence :
    match_literal 72 hostBuf CaseSensitivity.Insensitive = (false, hostBuf)
    ∧ tolowerAscii 72 ≠ StreamCursor.current hostBuf := by
  constructor
  · decide
  · decide

/-- C3: a window `[0, 2)` over the memory `"ABC"` with `current = 1 = end - 1`:
`next()` returns the byte `storage[2] = 'C'` sitting AT the window's end —
an out-of-window read — instead of the claimed EOF sentinel; `snext` only
guards `gptr == egptr` and then dereferences `gptr + 1` unconditionally. -/
theorem next_at_last_byte_divergence :
    StreamCursor.next ⟨[65, 66, 67], 0, 1, 2⟩ = some 67
    ∧ some StreamCursor.Eof ≠ (some 67 : Option Int) := by
  constructor
  · decide
  · decide

/-- C6: `match_until({'a'}, cursor, Sensitive)` on the one-byte window
`"A"` returns true with the cursor still at the `'A'`, although under a
Sensitive policy `'a' ≠ 'A'` and the claim demands a scan to EOF returning
false with the byte consumed: the `find` lambda folds the scanned byte even
in Sensitive mode (its `rhs` ternary is inverted), so `'a' == tolower('A')`
stops the scan. -/
theorem match_until_sensitive_divergence :
    match_until [97] ⟨[65], 0, 0, 1⟩ CaseSensitivity.Sensitive
        = (true, ⟨[65], 0, 0, 1⟩)
    ∧ (97 : Nat) ≠ 65 := by
  constructor
  · decide
  · decide

/-!
`match_double` calls C `strtod(cursor.offset(), &end)`.  `strtod` receives a
bare pointer, so it scans the memory from `gptr` onwards with no regard for
`egptr` (the source's own comment: "strtod does not support a length
argument").  We model the scanned memory as `storage.drop gptr` and `strtod`
restricted to decimal literals in the C locale (optional `isspace` run,
optional sign, digits with optional fraction, optional well-formed
exponent); hex/infinity/nan forms are never exercised by the claims.  The
numeric value is computed exactly over `ℚ`; when no conversion is performed
`strtod` returns 0 and sets `end` to the start pointer (consumed = 0, even
if whitespace was examined).
-/

/-- ASCII decimal digit. -/
def isDigit (c : Nat) : Bool := 48 ≤ c && c ≤ 57

/-- `isspace` in the C locale. -/
def isSpaceC (c : Nat) : Bool := c == 32 || (9 ≤ c && c ≤ 13)

/-- Value of a digit run, most significant first. -/
def digitsVal (ds : List Nat) : Nat := ds.foldl (fun a d => a * 10 + (d - 48)) 0

/-- Exponent part of a decimal literal: `[eE][+-]?digits`.  Returns the
signed exponent and the characters it consumes; `(0, 0)` when the input
does not begin with a well-formed exponent (in which case `strtod` leaves
those characters unconsumed). -/
def expPart (l : List Nat) : Int × Nat :=
  match l with
  | [] => (0, 0)
  | e :: rest =>
    if e = 101 ∨ e = 69 then
      let sgn : Int := if rest.headD 0 = 45 then -1 else 1
      let sgnLen := if rest.headD 0 = 45 ∨ rest.headD 0 = 43 then 1 else 0
      let ds := (rest.drop sgnLen).takeWhile isDigit
      if ds.length = 0 then (0, 0)
      else (sgn * (digitsVal ds : Int), 1 + sgnLen + ds.length)
    else (0, 0)

/-- Components of the decimal scan performed by `strtod`. -/
structure DecScan where
  negative : Bool
  wsLen : Nat
  sgnLen : Nat
  intDs : List Nat
  fracDs : List Nat
  dotLen : Nat
  e : Int
  eLen : Nat
deriving DecidableEq

/-- Scan a decimal literal at the head of `l`. -/
def decScan (l : List Nat) : DecScan :=
  let ws := l.takeWhile isSpaceC
  let l1 := l.drop ws.length
  let negative := l1.headD 0 = 45
  let sgnLen := if l1.headD 0 = 45 ∨ l1.headD 0 = 43 then 1 else 0
  let l2 := l1.drop sgnLen
  let intDs := l2.takeWhile isDigit
  let l3 := l2.drop intDs.length
  let hasDot := l3.headD 0 = 46
  let fracDs := if hasDot then (l3.drop 1).takeWhile isDigit else []
  let dotLen := if hasDot then 1 + fracDs.length else 0
  let (e, eLen) := expPart (l3.drop dotLen)
  ⟨negative, ws.length, sgnLen, intDs, fracDs, dotLen, e, eLen⟩

/-- Characters consumed by `strtod` on `l` (`end - nptr`): 0 when the
subject sequence holds no digit (no conversion), otherwise the full
whitespace + sign + mantissa + exponent extent. -/
def strtodConsumed (l : List Nat) : Nat :=
  if (decScan l).intDs.length + (decScan l).fracDs.length = 0 then 0
  else (decScan l).wsLen + (decScan l).sgnLen + (decScan l).intDs.length
    + (decScan l).dotLen + (decScan l).eLen

/-- `10 ^ e` over `ℚ` for a signed exponent. -/
def pow10 (e : Int) : ℚ :=
  if 0 ≤ e then ((10 : ℚ) ^ e.toNat) else ((10 : ℚ) ^ (-e).toNat)⁻¹

/-- Value returned by `strtod` on `l`: 0 on no conversion, otherwise the
exact value of the consumed literal. -/
def strtodVal (l : List Nat) : ℚ :=
  if strtodConsumed l = 0 then 0
  else
    (if (decScan l).negative then -1 else 1)
      * ((digitsVal (decScan l).intDs : ℚ)
          + (digitsVal (decScan l).fracDs : ℚ)
            / (10 : ℚ) ^ (decScan l).fracDs.length)
      * pow10 (decScan l).e

/-- `match_double(val, cursor)`: `*val = strtod(offset, &end)` is stored
unconditionally; if `end == offset` return false, otherwise
`cursor.advance(end - offset)` (its result is discarded) and return true.
The first component is the final `*val`; the input value `v0` is always
overwritten by the `strtod` call. -/
def match_double (_v0 : ℚ) (b : StreamBufSt) : ℚ × Bool × StreamBufSt :=
  if strtodConsumed (b.storage.drop b.gptr) = 0 then
    (strtodVal (b.storage.drop b.gptr), false, b)
  else
    (strtodVal (b.storage.drop b.gptr), true,
      (StreamCursor.advance b (strtodConsumed (b.storage.drop b.gptr))).2)

/-- The memory `"3.14abc"` with the window covering all 7 bytes, cursor at 0. -/
def buf314 : StreamBufSt := ⟨[51, 46, 49, 52, 97, 98, 99], 0, 0, 7⟩

theorem strtodVal_buf314 : strtodVal [51, 46, 49, 52, 97, 98, 99] = 157 / 50 := by
  have hs : decScan [51, 46, 49, 52, 97, 98, 99]
      = ⟨false, 0, 0, [51], [49, 52], 3, 0, 0⟩ := by decide
  unfold strtodVal
  rw [if_neg (by decide)]
  rw [hs]
  have h1 : digitsVal [51] = 3 := rfl
  have h2 : digitsVal [49, 52] = 14 := rfl
  simp only [h1, h2]
  norm_num [pow10]

theorem strtodVal_narrow : strtodVal [49, 50] = 12 := by
  have hs : decScan [49, 50] = ⟨false, 0, 0, [49, 50], [], 0, 0, 0⟩ := by decide
  unfold strtodVal
  rw [if_neg (by decide)]
  rw [hs]
  have h1 : digitsVal [49, 50] = 12 := rfl
  have h2 : digitsVal ([] : List Nat) = 0 := rfl
  simp only [h1, h2]
  norm_num [pow10]

/-- The memory `"abc"` with the window covering all 3 bytes, cursor at 0. -/
def bufAbc : StreamBufSt := ⟨[97, 98, 99], 0, 0, 3⟩

/-- C2 counterexample: on `"abc"` with the output value previously 7,
`match_double` returns false with the cursor untouched but OVERWRITES the
output value with 0 (the `strtod` result is stored before the no-progress
check), so the value is not "left untouched" as claimed. -/
theorem match_double_value_overwritten :
    match_double 7 bufAbc = (0, false, bufAbc) ∧ (0 : ℚ) ≠ 7 := by
  constructor
  · decide
  · decide

/-- C2 amended: on `"3.14abc"` `match_double` returns true, stores exactly
3.14 and advances the cursor by 4; on every input where the numeric grammar
consumes zero characters it returns false, stores 0 (the `strtod`
no-conversion result) and leaves the cursor unchanged. -/
theorem match_double_spec :
    (∀ v0 : ℚ, match_double v0 buf314
        = (157 / 50, true, ⟨[51, 46, 49, 52, 97, 98, 99], 0, 4, 7⟩))
    ∧ (∀ (v0 : ℚ) (b : StreamBufSt),
        strtodConsumed (b.storage.drop b.gptr) = 0 →
        match_double v0 b = (0, false, b)) := by
  constructor
  · intro v0
    show match_double v0 buf314 = _
    unfold match_double
    have hmem : List.drop buf314.gptr buf314.storage
        = [51, 46, 49, 52, 97, 98, 99] := rfl
    rw [hmem]
    rw [if_neg (by decide)]
    have hc : strtodConsumed [51, 46, 49, 52, 97, 98, 99] = 4 := by decide
    rw [hc, strtodVal_buf314]
    have hadv : (StreamCursor.advance buf314 4).2
        = ⟨[51, 46, 49, 52, 97, 98, 99], 0, 4, 7⟩ := by decide
    rw [hadv]
  · intro v0 b h
    unfold match_double
    rw [if_pos h]
    unfold strtodVal
    rw [if_pos h]

/-- Witness for `match_double_spec`: the positive branch on `"3.14abc"` and
the hypothesis-bearing branch discharged at `"abc"`. -/
theorem match_double_spec_witness :
    match_double 7 buf314
        = (157 / 50, true, ⟨[51, 46, 49, 52, 97, 98, 99], 0, 4, 7⟩)
    ∧ match_double 9 bufAbc = (0, false, bufAbc) :=
  ⟨match_double_spec.1 7, match_double_spec.2 9 bufAbc (by decide)⟩

/-- The memory `"12"` with the window ending after the first byte: one byte
remains readable, the `'2'` sits at the window's end. -/
def bufNarrow : StreamBufSt := ⟨[49, 50], 0, 0, 1⟩

/-- C4: `match_double` reads past the window's end.  With one byte `"1"`
remaining and a `'2'` in memory at the window's end, `strtod` consumes 2
characters — one more than `remaining() = 1`, so it inspected the byte at
the end — parses 12, and `match_double` returns true while the discarded
`advance(2)` has failed, leaving the cursor where it was. -/
theorem match_double_reads_past_end :
    strtodConsumed (bufNarrow.storage.drop bufNarrow.gptr) = 2
    ∧ StreamCursor.remaining bufNarrow = 1
    ∧ match_double 0 bufNarrow = (12, true, bufNarrow) := by
  refine ⟨by decide, by decide, ?_⟩
  unfold match_double
  have hmem : List.drop bufNarrow.gptr bufNarrow.storage = [49, 50] := rfl
  rw [hmem]
  rw [if_neg (by decide)]
  have hc : strtodConsumed [49, 50] = 2 := by decide
  rw [hc, strtodVal_narrow]
  have hadv : (StreamCursor.advance bufNarrow 2).2 = bufNarrow := by decide
  rw [hadv]

/-- `StreamCursor::Revert`: the window snapshot taken at construction
(`eback`/`gptr`/`egptr` of the cursor's buffer) plus the `active` flag. -/
structure Revert where
  eback : Nat
  gptr : Nat
  egptr : Nat
  active : Bool
deriving DecidableEq

/-- Guard construction: capture the current window, initially active. -/
def Revert.capture (b : StreamBufSt) : Revert := ⟨b.eback, b.gptr, b.egptr, true⟩

/-- `Revert::ignore()`: deactivate the guard. -/
def Revert.ignore (r : Revert) : Revert := { r with active := false }

/-- `Revert::revert()`: `setArea` with the captured pointers. -/
def Revert.revert (r : Revert) (b : StreamBufSt) : StreamBufSt :=
  setArea b r.eback r.gptr r.egptr

/-- The guard's destructor: revert if still active. -/
def Revert.destruct (r : Revert) (b : StreamBufSt) : StreamBufSt :=
  if r.active then r.revert b else b

/-- A sequence of `advance` calls performed while a guard is alive. -/
def applyAdvances (b : StreamBufSt) (l : List Nat) : StreamBufSt :=
  l.foldl (fun s c => (StreamCursor.advance s c).2) b

theorem applyAdvances_storage (l : List Nat) (b : StreamBufSt) :
    (applyAdvances b l).storage = b.storage := by
  induction l generalizing b with
  | nil => rfl
  | cons c l ih =>
    show (applyAdvances (StreamCursor.advance b c).2 l).storage = b.storage
    rw [ih, advance_snd_storage]

theorem capture_destruct_eq (b b' : StreamBufSt) (hs : b'.storage = b.storage) :
    (Revert.capture b).destruct b' = b := by
  unfold Revert.capture Revert.destruct Revert.revert setArea
  rw [if_pos rfl]
  cases b
  cases b'
  simp only at hs
  rw [hs]

/-- C5: destroying a Revert guard without `ignore()` restores the buffer's
window exactly to the construction-time snapshot, whatever sequence of
advances happened in between; `ignore()` before destruction leaves the
advances committed; and with nested guards the inner guard's commit does
not prevent the outer guard's rollback. -/
theorem revert_guard_spec (b : StreamBufSt) (outer inner : List Nat) :
    (Revert.capture b).destruct (applyAdvances b outer) = b
    ∧ ((Revert.capture b).ignore).destruct (applyAdvances b outer)
        = applyAdvances b outer
    ∧ (Revert.capture b).destruct
        (((Revert.capture (applyAdvances b outer)).ignore).destruct
          (applyAdvances (applyAdvances b outer) inner)) = b := by
  have hignore : ∀ b0 b1 : StreamBufSt,
      ((Revert.capture b0).ignore).destruct b1 = b1 := by
    intro b0 b1
    unfold Revert.capture Revert.ignore Revert.destruct
    simp
  refine ⟨?_, hignore b (applyAdvances b outer), ?_⟩
  · exact capture_destruct_eq b _ (applyAdvances_storage outer b)
  · rw [hignore]
    refine capture_destruct_eq b _ ?_
    rw [applyAdvances_storage, applyAdvances_storage]

/-- State of an `ArrayStreamBuf<N>`: the fixed backing array (a list of
length `N`), the number of bytes fed so far, and the get-area indices into
the array (`eback` always 0, the array base). -/
structure ArrayStreamBufSt where
  N : Nat
  bytes : List Nat
  size : Nat
  eback : Nat
  gptr : Nat
  egptr : Nat
deriving DecidableEq

/-- `ArrayStreamBuf::feed(data, len)`: reject without mutation when
`size + len >= N`; otherwise `memcpy` the bytes to offset `size`,
`setg(bytes, bytes + size, bytes + size + len)`, and `size += len`. -/
def feed (a : ArrayStreamBufSt) (data : List Nat) : Bool × ArrayStreamBufSt :=
  if a.size + data.length ≥ a.N then (false, a)
  else
    (true, { a with
      bytes := a.bytes.take a.size ++ data ++ a.bytes.drop (a.size + data.length),
      eback := 0, gptr := a.size, egptr := a.size + data.length,
      size := a.size + data.length })

/-- C7: `feed` fails leaving the buffer entirely unchanged whenever
`size + len >= N` (so `size + len == N` fails and `size + len == N - 1`
succeeds, the boundary instantiated in the witness); on success it copies
the bytes and sets the window's end to `start + size + len` and its current
to `start + (previous size)`. -/
theorem feed_spec (a : ArrayStreamBufSt) (data : List Nat) :
    (a.size + data.length ≥ a.N → feed a data = (false, a))
    ∧ (a.size + data.length < a.N →
      feed a data = (true, { a with
        bytes := a.bytes.take a.size ++ data
          ++ a.bytes.drop (a.size + data.length),
        eback := 0, gptr := a.size, egptr := a.size + data.length,
        size := a.size + data.length })) := by
  constructor
  · intro h
    unfold feed
    rw [if_pos h]
  · intro h
    unfold feed
    rw [if_neg (by omega)]

/-- An appendable buffer of capacity `N = 4` holding `size = 2` bytes. -/
def bufArr : ArrayStreamBufSt := ⟨4, [1, 2, 0, 0], 2, 0, 0, 2⟩

/-- Witness for `feed_spec` at the claim's boundary: with `N = 4`,
`size = 2`, feeding 2 bytes (`size + len == N`) fails and feeding 1 byte
(`size + len == N - 1`) succeeds. -/
theorem feed_spec_witness :
    feed bufArr [7, 8] = (false, bufArr)
    ∧ feed bufArr [7] = (true, ⟨4, [1, 2, 7, 0], 3, 0, 2, 3⟩) :=
  ⟨(feed_spec bufArr [7, 8]).1 (by decide),
   (feed_spec bufArr [7]).2 (by decide)⟩

/-- State of a `NetworkStream`: the `maxSize_` cap, the store's size
(`data_.size()`, i.e. the current capacity), and the bytes written so far
(`pptr() - &data_[0]` of them); the put area runs from the written length
to the capacity. -/
structure NetworkStreamSt where
  maxSize : Nat
  cap : Nat
  written : List Nat
deriving DecidableEq

/-- `NetworkStream(size, maxSize)`: `reserve(size)` resizes the store to
`size` clamped to `maxSize` and puts the whole store in the put area. -/
def NetworkStream.init (size maxSize : Nat) : NetworkStreamSt :=
  ⟨maxSize, min size maxSize, []⟩

/-- `sputc(ch)`: write into the put area if there is room; otherwise
`overflow(ch)` — for a non-eof `ch`, if `data_.size() < maxSize_`,
`reserve(size * 2)` (clamped to `maxSize_` inside `reserve`) and write,
else fail with eof. -/
def sputc (s : NetworkStreamSt) (ch : Nat) : Bool × NetworkStreamSt :=
  if s.written.length < s.cap then
    (true, { s with written := s.written ++ [ch] })
  else if s.cap < s.maxSize then
    (true, { s with
        cap := (min (s.cap * 2) s.maxSize),
        written := s.written ++ [ch] })
  else (false, s)

/-- Write `n` bytes one at a time (byte value 0), stopping at the first
failure. -/
def writeN (s : NetworkStreamSt) : Nat → Bool × NetworkStreamSt
  | 0 => (true, s)
  | n + 1 =>
    if (sputc s 0).1 then writeN (sputc s 0).2 n else (false, (sputc s 0).2)

theorem writeN_ok : ∀ (n : Nat) (s : NetworkStreamSt),
    1 ≤ s.cap → s.cap ≤ s.maxSize → s.written.length ≤ s.cap →
    s.written.length + n ≤ s.maxSize →
    (writeN s n).1 = true
    ∧ (writeN s n).2.written.length = s.written.length + n
    ∧ (writeN s n).2.cap ≤ s.maxSize
    ∧ (writeN s n).2.written.length ≤ (writeN s n).2.cap
    ∧ 1 ≤ (writeN s n).2.cap
    ∧ (writeN s n).2.maxSize = s.maxSize := by
  intro n
  induction n with
  | zero =>
    intro s h1 h2 h3 h4
    refine ⟨rfl, ?_, h2, h3, h1, rfl⟩
    show s.written.length = s.written.length + 0
    omega
  | succ n ih =>
    intro s h1 h2 h3 h4
    by_cases hlt : s.written.length < s.cap
    · have hsp : sputc s 0 = (true, { s with written := s.written ++ [0] }) := by
        unfold sputc
        rw [if_pos hlt]
      have hw : writeN s (n + 1) = writeN { s with written := s.written ++ [0] } n := by
        show (if (sputc s 0).1 then writeN (sputc s 0).2 n
              else (false, (sputc s 0).2)) = _
        rw [hsp]
        rfl
      rw [hw]
      have ih' := ih { s with written := s.written ++ [0] } h1 h2
        (by show (s.written ++ [0]).length ≤ s.cap; simp; omega)
        (by show (s.written ++ [0]).length + n ≤ s.maxSize; simp; omega)
      obtain ⟨ha, hb, hc, hd, he, hf⟩ := ih'
      simp only [List.length_append, List.length_cons, List.length_nil] at hb
      exact ⟨ha, by omega, hc, hd, he, hf⟩
    · have hcaplt : s.cap < s.maxSize := by omega
      have hsp : sputc s 0 = (true, { s with
          cap := (min (s.cap * 2) s.maxSize),
          written := s.written ++ [0] }) := by
        unfold sputc
        rw [if_neg hlt, if_pos hcaplt]
      have hw : writeN s (n + 1) = writeN { s with
          cap := (min (s.cap * 2) s.maxSize),
          written := s.written ++ [0] } n := by
        show (if (sputc s 0).1 then writeN (sputc s 0).2 n
              else (false, (sputc s 0).2)) = _
        rw [hsp]
        rfl
      rw [hw]
      have ih' := ih { s with
          cap := (min (s.cap * 2) s.maxSize),
          written := s.written ++ [0] }
        (by show 1 ≤ min (s.cap * 2) s.maxSize; omega)
        (by show min (s.cap * 2) s.maxSize ≤ s.maxSize; omega)
        (by show (s.written ++ [0]).length ≤ min (s.cap * 2) s.maxSize
            simp
            omega)
        (by show (s.written ++ [0]).length + n ≤ s.maxSize; simp; omega)
      obtain ⟨ha, hb, hc, hd, he, hf⟩ := ih'
      simp only [List.length_append, List.length_cons, List.length_nil] at hb
      exact ⟨ha, by omega, hc, hd, he, hf⟩

/-- C8: from initial capacity `cap ≥ 1` and `maxSize ≥ cap`, the first
`maxSize` one-byte writes all succeed; a write that triggers growth sets
the capacity to exactly `min (2 * old) maxSize`; the `(maxSize + 1)`-th
write fails writing nothing, the written length staying `maxSize`; and in
the spec's example (capacity 4, `maxSize` 8) five writes succeed with one
growth to capacity 8 while the first four leave the capacity at 4. -/
theorem network_stream_spec (cap ms : Nat) (h1 : 1 ≤ cap) (h2 : cap ≤ ms) :
    ((writeN (NetworkStream.init cap ms) ms).1 = true
      ∧ (writeN (NetworkStream.init cap ms) ms).2.written.length = ms)
    ∧ sputc (writeN (NetworkStream.init cap ms) ms).2 0
        = (false, (writeN (NetworkStream.init cap ms) ms).2)
    ∧ (∀ s : NetworkStreamSt, ¬ s.written.length < s.cap →
        s.cap < s.maxSize → (sputc s 0).2.cap = min (s.cap * 2) s.maxSize)
    ∧ ((writeN (NetworkStream.init 4 8) 5).1 = true
      ∧ (writeN (NetworkStream.init 4 8) 5).2.cap = 8
      ∧ (writeN (NetworkStream.init 4 8) 4).2.cap = 4) := by
  have hinit : NetworkStream.init cap ms = ⟨ms, cap, []⟩ := by
    unfold NetworkStream.init
    rw [Nat.min_eq_left h2]
  rw [hinit]
  have H := writeN_ok ms (⟨ms, cap, []⟩ : NetworkStreamSt) h1 h2
    (by show List.length [] ≤ cap; simp)
    (by show List.length [] + ms ≤ ms; simp)
  obtain ⟨ha, hb, hc, hd, he, hf⟩ := H
  have hb' : (writeN (⟨ms, cap, []⟩ : NetworkStreamSt) ms).2.written.length
      = ms := by
    simp only [List.length_nil, Nat.zero_add] at hb
    exact hb
  have hc' : (writeN (⟨ms, cap, []⟩ : NetworkStreamSt) ms).2.cap ≤ ms := hc
  have hf' : (writeN (⟨ms, cap, []⟩ : NetworkStreamSt) ms).2.maxSize = ms := hf
  refine ⟨⟨ha, hb'⟩, ?_, ?_, by decide⟩
  · unfold sputc
    rw [if_neg (by omega), if_neg (by omega)]
  · intro s hnl hcl
    unfold sputc
    rw [if_neg hnl, if_pos hcl]

/-- Witness for `network_stream_spec` at the spec's example configuration
(initial capacity 4, `maxSize` 8): the first 8 writes all succeed and the
written length reaches 8. -/
theorem network_stream_spec_witness :
    (writeN (NetworkStream.init 4 8) 8).1 = true
    ∧ (writeN (NetworkStream.init 4 8) 8).2.written.length = 8 :=
  (network_stream_spec 4 8 (by decide) (by decide)).1

end Pistache
